import Mathlib

/-!
A shallow embedding of the `key_code` terminal keyboard-input decoder
(`src/key_code/key_code.cpp`), together with theorems checking the
specification's statements about it.

The program decodes raw terminal bytes into input events.  One iteration of
the main loop (one "next_event") performs:
  1. a blocking 1-byte read of the first byte `c` (`read_raw(&c)`);
  2. if `c == 0x1b` (ESC), a non-blocking timeout-bounded 1-byte read
     (`read_raw(&immediate_next, false)`);
  3. if that read returned one byte, a non-blocking read of up to 10 more
     bytes into a zero-initialized `char buffer[11]`, appended to the
     accumulated `key_sequence` with C-string semantics
     (`key_sequence.append(buffer)`);
  4. a single exact-match lookup of `key_sequence` in `virtual_key_map`,
     dispatching either a virtual-key event or one character line per byte
     of the unmatched sequence.

Bytes are modelled as `Nat` values (the program only ever compares them for
equality).  The outcome of the two non-blocking reads is an oracle supplied
as input: `Option Byte` for the 1-byte continuation read (`none` = timeout,
zero bytes) and a `List Byte` for the up-to-10-byte read.
-/

namespace KeyCode

/-- A raw input byte (`char` in the source, compared only for equality). -/
abbrev Byte := Nat

/-- The `vkey_t` enum of `key_code.cpp` (lines 160-188): the closed set of
virtual key codes, with `none` as the internal not-a-virtual-key sentinel. -/
inductive vkey_t : Type where
  | none
  | F1
  | F2
  | F3
  | F4
  | F5
  | F6
  | F7
  | F8
  | F9
  | F10
  | F11
  | F12
  | HOME
  | «END»
  | UP_ARROW
  | DOWN_ARROW
  | LEFT_ARROW
  | RIGHT_ARROW
  | PAGE_UP
  | PAGE_DOWN
  | INSERT
  | DELETE
  | ESC
  | BACKSPACE
  | ENTER
  | TAB
  deriving DecidableEq

/-- The additional virtual keys declared only in the duplicate header
`raw_keyboard.h` (lines 101-129): its `vkey_t` enum also lists
`PRINT_SCREEN` and `PAUSE_BREAK` (and omits `none` and `ESC`). -/
inductive raw_keyboard_vkey_t : Type where
  | F1
  | F2
  | F3
  | F4
  | F5
  | F6
  | F7
  | F8
  | F9
  | F10
  | F11
  | F12
  | HOME
  | UP_ARROW
  | PAGE_UP
  | LEFT_ARROW
  | RIGHT_ARROW
  | «END»
  | DOWN_ARROW
  | PAGE_DOWN
  | INSERT
  | DELETE
  | PRINT_SCREEN
  | PAUSE_BREAK
  | BACKSPACE
  | ENTER
  | TAB
  deriving DecidableEq

/-- The `virtual_key_map` of `key_code.cpp` (lines 255-266): the fixed
`unordered_map<string, vkey_t>`, with each C++ string literal spelled out as
its byte sequence (e.g. `"\x1b[OQ"` is `[0x1b, 0x5b, 0x4f, 0x51]`). -/
def virtual_key_map : List (List Byte × vkey_t) :=
  [ ([0x1b], vkey_t.ESC),
    ([0x1b, 0x5b, 0x4f, 0x51], vkey_t.F2),
    ([0x1b, 0x5b, 0x4f, 0x52], vkey_t.F3),
    ([0x1b, 0x5b, 0x4f, 0x53], vkey_t.F4),
    ([0x1b, 0x5b, 0x31, 0x35, 0x7e], vkey_t.F5),
    ([0x1b, 0x5b, 0x31, 0x37, 0x7e], vkey_t.F6),
    ([0x1b, 0x5b, 0x31, 0x38, 0x7e], vkey_t.F7),
    ([0x1b, 0x5b, 0x31, 0x39, 0x7e], vkey_t.F8),
    ([0x1b, 0x5b, 0x32, 0x30, 0x7e], vkey_t.F9),
    ([0x1b, 0x5b, 0x48], vkey_t.HOME),
    ([0x1b, 0x5b, 0x46], vkey_t.«END»),
    ([0x1b, 0x5b, 0x41], vkey_t.UP_ARROW),
    ([0x1b, 0x5b, 0x42], vkey_t.DOWN_ARROW),
    ([0x1b, 0x5b, 0x43], vkey_t.RIGHT_ARROW),
    ([0x1b, 0x5b, 0x44], vkey_t.LEFT_ARROW),
    ([0x1b, 0x5b, 0x35, 0x7e], vkey_t.PAGE_UP),
    ([0x1b, 0x5b, 0x36, 0x7e], vkey_t.PAGE_DOWN),
    ([0x1b, 0x5b, 0x32, 0x7e], vkey_t.INSERT),
    ([0x1b, 0x5b, 0x33, 0x7e], vkey_t.DELETE),
    ([0x7f], vkey_t.BACKSPACE),
    ([0x0a], vkey_t.ENTER),
    ([0x09], vkey_t.TAB) ]

/-- Exact-match lookup, the `virtual_key_map.find(key_sequence)` call of
`key_code.cpp` line 331: returns the mapped value of the first (unique)
entry whose key equals the probe, or nothing. -/
def map_find (m : List (List Byte × vkey_t)) (ks : List Byte) : Option vkey_t :=
  match m with
  | [] => Option.none
  | (k, v) :: rest => if k = ks then Option.some v else map_find rest ks

/-- An input event as dispatched by the main loop: either one
`"character input - %c"` line or one `"vk        input - %hu"` line. -/
inductive event_t : Type where
  | character : Byte → event_t
  | key : vkey_t → event_t
  deriving DecidableEq

/-- The read-outcome oracle for one main-loop iteration: the first byte
returned by the blocking `read_raw(&c)`, the outcome of the non-blocking
1-byte read (`Option.none` models `rdret != 1`, i.e. the 100 ms poll
returning zero bytes), and the bytes the final non-blocking read would
deliver (the kernel returns at most the requested 10 of them). -/
structure NextEventInput : Type where
  first : Byte
  immediate : Option Byte
  continuation : List Byte
  deriving DecidableEq

/-- The zero-initialized `char buffer[11]` of `key_code.cpp` line 317 after
`read_raw(buffer, false, 10)` stored the delivered bytes (at most 10) at its
front: the delivered bytes followed by the remaining zero bytes. -/
def buffer_fill (bs : List Byte) : List Byte :=
  bs.take 10 ++ List.replicate (11 - (bs.take 10).length) 0

/-- C-string reading of a byte buffer, the semantics of
`key_sequence.append(buffer)` on a `char*` (line 320): the bytes strictly
before the first NUL. -/
def cstring (l : List Byte) : List Byte :=
  l.takeWhile (fun b => decide (b ≠ 0))

/-- The `key_sequence` accumulated by one main-loop iteration
(`key_code.cpp` lines 293-322): the first byte; then, when it is ESC and the
non-blocking 1-byte read returned a byte, that byte followed by the C-string
contents of the buffer filled by the up-to-10-byte read. -/
def accumulate (inp : NextEventInput) : List Byte :=
  let ks := [inp.first]
  if inp.first = 0x1b then
    match inp.immediate with
    | Option.some b => (ks ++ [b]) ++ cstring (buffer_fill inp.continuation)
    | Option.none => ks
  else ks

/-- The events dispatched by one main-loop iteration (`key_code.cpp` lines
331-356): look the accumulated sequence up in `virtual_key_map`; on a match
set `vk` to the entry and clear `key_sequence`, otherwise `vk` stays
`vkey_t.none`; then print the virtual key when `vk != none`, else one
character line per byte left in `key_sequence`. -/
def next_event (inp : NextEventInput) : List event_t :=
  let ks := accumulate inp
  match map_find virtual_key_map ks with
  | Option.some vk =>
      if vk = vkey_t.none then ([] : List Byte).map event_t.character
      else [event_t.key vk]
  | Option.none => ks.map event_t.character

/-- The number of stream bytes consumed by one main-loop iteration: 1 for
the blocking first read, plus, on the ESC path, 1 for a delivered
`immediate_next` byte and however many (at most 10) bytes the final read
delivered. -/
def bytes_consumed (inp : NextEventInput) : Nat :=
  if inp.first = 0x1b then
    match inp.immediate with
    | Option.some _ => 2 + (inp.continuation.take 10).length
    | Option.none => 1
  else 1

/-- The number of `read_raw` calls one main-loop iteration performs: the
blocking read; plus the non-blocking 1-byte read when the first byte is ESC;
plus the up-to-10-byte read when that read delivered a byte. -/
def reads_performed (inp : NextEventInput) : Nat :=
  if inp.first = 0x1b then
    match inp.immediate with
    | Option.some _ => 3
    | Option.none => 2
  else 1

/-- The dispatch loop of `main` (`key_code.cpp` lines 292-363) over a list
of per-iteration read oracles: it stops with exit code `EXIT_SUCCESS` (0)
when the blocking read fails to return a byte (end of the oracle list) or
when the first byte read is the character `q` (0x71), which is checked in
the loop condition before any decoding; otherwise it dispatches the
iteration's events and continues. -/
def run (stream : List NextEventInput) : List event_t × Nat :=
  match stream with
  | [] => ([], 0)
  | inp :: rest =>
      if inp.first = 0x71 then ([], 0)
      else
        let r := run rest
        (next_event inp ++ r.1, r.2)

/-- The `raw_mode_t` enum of `key_code.cpp` (lines 33-57). -/
inductive raw_mode_t : Type where
  | immediate_no_echo
  | immediate_no_echo_ignore_signals
  deriving DecidableEq

/-- The local-mode flags of a `struct termios` that
`raw_mode_t::immediate_no_echo` manipulates, split out as booleans. -/
structure lflags : Type where
  echo : Bool
  icanon : Bool
  iexten : Bool
  isig : Bool
  deriving DecidableEq

/-- A `struct termios` value: the local-mode flags, the `c_cc[VMIN]` and
`c_cc[VTIME]` control characters, and one opaque field standing for every
remaining bit of the structure (input/output/control flags, other control
characters), so that two values are equal exactly when they are
bit-identical. -/
structure termios_t : Type where
  lflag : lflags
  vmin : Nat
  vtime : Nat
  rest : Nat
  deriving DecidableEq

/-- `cfmakeraw` (called on the `immediate_no_echo_ignore_signals` branch,
`key_code.cpp` line 132), modelled on the local-mode flags it clears
(`ECHO`, `ICANON`, `IEXTEN`, `ISIG`). -/
def cfmakeraw (t : termios_t) : termios_t :=
  { t with lflag := ⟨false, false, false, false⟩ }

/-- The process-wide mutable state the raw-mode controller touches: the
terminal's live settings (what `tcgetattr` reads and `tcsetattr` writes),
the saved `orig_termios` global, the `bset_exit` one-time guard
(`key_code.cpp` lines 12-13), and the number of times
`atexit(disable_raw_mode)` has been registered. -/
structure ProcState : Type where
  terminal : termios_t
  orig_termios : termios_t
  bset_exit : Bool
  atexit_hooks : Nat
  deriving DecidableEq

/-- `disable_raw_mode` (`key_code.cpp` line 22):
`tcsetattr(STDIN_FILENO, TCSAFLUSH, &orig_termios)` puts the saved original
settings back on the terminal. -/
def disable_raw_mode (s : ProcState) : ProcState :=
  { s with terminal := s.orig_termios }

/-- `enable_raw_mode` (`key_code.cpp` lines 81-148): on the first call only
(the `bset_exit` guard), register the exit hook and snapshot the current
terminal settings into `orig_termios`; then read the current settings into
`raw`, clear `ECHO|ICANON` (or apply `cfmakeraw`), set `VMIN`/`VTIME` for
blocking or 100 ms-poll reads, and write `raw` back with `tcsetattr`. -/
def enable_raw_mode (wait_for_input : Bool) (mode : raw_mode_t)
    (s : ProcState) : ProcState :=
  let s1 :=
    if !s.bset_exit then
      { s with
        atexit_hooks := s.atexit_hooks + 1
        orig_termios := s.terminal
        bset_exit := true }
    else s
  let raw := s1.terminal
  let raw :=
    match mode with
    | raw_mode_t.immediate_no_echo =>
        { raw with lflag := { raw.lflag with echo := false, icanon := false } }
    | raw_mode_t.immediate_no_echo_ignore_signals => cfmakeraw raw
  let raw :=
    if wait_for_input then { raw with vmin := 1, vtime := 0 }
    else { raw with vmin := 0, vtime := 1 }
  { s1 with terminal := raw }

/-! ### Helper lemmas -/

/-- C-string reading stops at a NUL: everything at and after the first
appended zero byte is dropped. -/
lemma cstring_append_zero (l r : List Byte) :
    cstring (l ++ 0 :: r) = cstring l := by
  induction l with
  | nil => simp [cstring]
  | cons a t ih =>
      by_cases h : a = 0
      · subst h
        simp [cstring]
      · simp only [cstring, List.cons_append] at ih ⊢
        rw [List.takeWhile_cons_of_pos (by simpa using h),
          List.takeWhile_cons_of_pos (by simpa using h), ih]

/-- A zero-free byte list is read back whole by C-string reading. -/
lemma cstring_of_zero_not_mem (l : List Byte) (h : (0 : Byte) ∉ l) :
    cstring l = l := by
  induction l with
  | nil => rfl
  | cons a t ih =>
      have ha : a ≠ 0 := fun hh => h (hh ▸ List.mem_cons_self a t)
      have ht : (0 : Byte) ∉ t := fun hh => h (List.mem_cons_of_mem a hh)
      simp only [cstring] at ih ⊢
      rw [List.takeWhile_cons_of_pos (by simpa using ha), ih ht]

/-- Reading the zero-initialized 11-byte buffer as a C string sees only the
delivered bytes (at most 10 of them): the padding always starts with a NUL. -/
lemma cstring_buffer_fill (bs : List Byte) :
    cstring (buffer_fill bs) = cstring (bs.take 10) := by
  have hlen : (bs.take 10).length ≤ 10 := by
    simp
  have hpos : 0 < 11 - (bs.take 10).length := by omega
  obtain ⟨n, hn⟩ : ∃ n, 11 - (bs.take 10).length = n + 1 :=
    ⟨11 - (bs.take 10).length - 1, by omega⟩
  rw [buffer_fill, hn, List.replicate_succ, cstring_append_zero]

/-- The accumulated sequence always starts with the first byte read. -/
lemma accumulate_head (inp : NextEventInput) :
    ∃ t, accumulate inp = inp.first :: t := by
  unfold accumulate
  by_cases h : inp.first = 0x1b
  · rw [if_pos h]
    cases inp.immediate with
    | none => exact ⟨[], rfl⟩
    | some b => exact ⟨b :: cstring (buffer_fill inp.continuation), rfl⟩
  · rw [if_neg h]
    exact ⟨[], rfl⟩

/-- Soundness of the table lookup: a hit comes from an entry of the map. -/
lemma map_find_mem (m : List (List Byte × vkey_t)) (ks : List Byte)
    (v : vkey_t) (h : map_find m ks = Option.some v) : (ks, v) ∈ m := by
  induction m with
  | nil => simp [map_find] at h
  | cons p rest ih =>
      obtain ⟨k, w⟩ := p
      simp only [map_find] at h
      split at h
      case isTrue heq =>
        injection h with h2
        subst h2
        subst heq
        exact List.mem_cons_self _ _
      case isFalse heq =>
        exact List.mem_cons_of_mem _ (ih h)

/-- Completeness of the table lookup on the concrete `virtual_key_map`
(its keys are pairwise distinct): every entry is found. -/
lemma mem_map_find (s : List Byte) (vk : vkey_t)
    (h : (s, vk) ∈ virtual_key_map) :
    map_find virtual_key_map s = Option.some vk := by
  fin_cases h <;> rfl

/-- No entry of `virtual_key_map` maps to the internal sentinel
`vkey_t.none`. -/
lemma table_value_ne_none (s : List Byte) (vk : vkey_t)
    (h : (s, vk) ∈ virtual_key_map) : vk ≠ vkey_t.none := by
  fin_cases h <;> decide

/-- `next_event` on a successful lookup of a non-sentinel value: exactly one
virtual-key event. -/
lemma next_event_of_find_some (inp : NextEventInput) (vk : vkey_t)
    (hf : map_find virtual_key_map (accumulate inp) = Option.some vk)
    (hv : vk ≠ vkey_t.none) : next_event inp = [event_t.key vk] := by
  simp only [next_event]
  rw [hf]
  simp [hv]

/-- `next_event` on a failed lookup: one character event per accumulated
byte. -/
lemma next_event_of_find_none (inp : NextEventInput)
    (hf : map_find virtual_key_map (accumulate inp) = Option.none) :
    next_event inp = (accumulate inp).map event_t.character := by
  simp only [next_event]
  rw [hf]

/-- A virtual-key event dispatched by `next_event` always comes from a
successful lookup of the accumulated sequence. -/
lemma key_event_from_lookup (inp : NextEventInput) (k : vkey_t)
    (h : event_t.key k ∈ next_event inp) :
    map_find virtual_key_map (accumulate inp) = Option.some k := by
  cases hf : map_find virtual_key_map (accumulate inp) with
  | none =>
      rw [next_event_of_find_none inp hf] at h
      simp only [List.mem_map] at h
      obtain ⟨b, -, hb⟩ := h
      exact absurd hb (by simp)
  | some vk =>
      by_cases hv : vk = vkey_t.none
      · have he : next_event inp = [] := by
          simp only [next_event]
          rw [hf]
          simp [hv]
        rw [he] at h
        simp at h
      · rw [next_event_of_find_some inp vk hf hv] at h
        simp only [List.mem_singleton, event_t.key.injEq] at h
        rw [h]

/-- The sequence table exactly as the specification enumerates it (§4.2),
written from the spec's words for comparison with the code's
`virtual_key_map`. -/
def spec_sequence_table : List (List Byte × vkey_t) :=
  [ ([0x1b], vkey_t.ESC),
    ([0x1b, 0x5b, 0x4f, 0x51], vkey_t.F2),
    ([0x1b, 0x5b, 0x4f, 0x52], vkey_t.F3),
    ([0x1b, 0x5b, 0x4f, 0x53], vkey_t.F4),
    ([0x1b, 0x5b, 0x31, 0x35, 0x7e], vkey_t.F5),
    ([0x1b, 0x5b, 0x31, 0x37, 0x7e], vkey_t.F6),
    ([0x1b, 0x5b, 0x31, 0x38, 0x7e], vkey_t.F7),
    ([0x1b, 0x5b, 0x31, 0x39, 0x7e], vkey_t.F8),
    ([0x1b, 0x5b, 0x32, 0x30, 0x7e], vkey_t.F9),
    ([0x1b, 0x5b, 0x48], vkey_t.HOME),
    ([0x1b, 0x5b, 0x46], vkey_t.«END»),
    ([0x1b, 0x5b, 0x41], vkey_t.UP_ARROW),
    ([0x1b, 0x5b, 0x42], vkey_t.DOWN_ARROW),
    ([0x1b, 0x5b, 0x43], vkey_t.RIGHT_ARROW),
    ([0x1b, 0x5b, 0x44], vkey_t.LEFT_ARROW),
    ([0x1b, 0x5b, 0x35, 0x7e], vkey_t.PAGE_UP),
    ([0x1b, 0x5b, 0x36, 0x7e], vkey_t.PAGE_DOWN),
    ([0x1b, 0x5b, 0x32, 0x7e], vkey_t.INSERT),
    ([0x1b, 0x5b, 0x33, 0x7e], vkey_t.DELETE),
    ([0x7f], vkey_t.BACKSPACE),
    ([0x0a], vkey_t.ENTER),
    ([0x09], vkey_t.TAB) ]

/-- Shared helper: the bare-ESC path. When the first byte is ESC and the
timeout-bounded 1-byte read returns zero bytes, the accumulated sequence is
the single byte ESC and the lookup resolves it to `Key(Esc)`. -/
lemma next_event_bare_esc (inp : NextEventInput) (hesc : inp.first = 0x1b)
    (ht : inp.immediate = Option.none) :
    next_event inp = [event_t.key vkey_t.ESC] := by
  have hacc : accumulate inp = [0x1b] := by
    unfold accumulate
    rw [if_pos hesc, ht, hesc]
  have hf : map_find virtual_key_map (accumulate inp)
      = Option.some vkey_t.ESC := by
    rw [hacc]
    rfl
  exact next_event_of_find_some inp vkey_t.ESC hf (by decide)

/-! ### Claim theorems -/

/-- Claim C2: for every input whose first byte is ESC (0x1b) and whose
non-blocking timeout-bounded 1-byte read returns zero bytes, `next_event`
resolves to `Key(Esc)`, consumes exactly 1 byte from the stream, and
performs no further read in that call (only the blocking first read and the
single timed-out read happen, two reads in total). -/
theorem c2_bare_escape_key (inp : NextEventInput) (hesc : inp.first = 0x1b)
    (ht : inp.immediate = Option.none) :
    next_event inp = [event_t.key vkey_t.ESC] ∧
    bytes_consumed inp = 1 ∧
    reads_performed inp = 2 := by
  refine ⟨next_event_bare_esc inp hesc ht, ?_, ?_⟩
  · unfold bytes_consumed
    rw [if_pos hesc, ht]
  · unfold reads_performed
    rw [if_pos hesc, ht]

/-- Witness for C2 at the concrete input stream consisting of the single
byte ESC followed by a timeout. -/
theorem c2_bare_escape_key_witness :
    next_event ⟨0x1b, Option.none, []⟩ = [event_t.key vkey_t.ESC] ∧
    bytes_consumed ⟨0x1b, Option.none, []⟩ = 1 ∧
    reads_performed ⟨0x1b, Option.none, []⟩ = 2 :=
  c2_bare_escape_key ⟨0x1b, Option.none, []⟩ rfl rfl

/-- Claim C4: whenever the accumulated sequence equals a key of the table,
`next_event` resolves to exactly the mapped virtual key through the single
lookup; in particular single-byte entries 0x0a/0x09/0x7f yield
Enter/Tab/Backspace through that same lookup, and the promptly delivered
stream `ESC [ A` yields `Key(UpArrow)` consuming exactly 3 bytes. -/
theorem c4_exact_table_match (inp : NextEventInput) (s : List Byte)
    (vk : vkey_t) (hmem : (s, vk) ∈ virtual_key_map)
    (hacc : accumulate inp = s) :
    next_event inp = [event_t.key vk] ∧
    next_event ⟨0x0a, Option.none, []⟩ = [event_t.key vkey_t.ENTER] ∧
    next_event ⟨0x09, Option.none, []⟩ = [event_t.key vkey_t.TAB] ∧
    next_event ⟨0x7f, Option.none, []⟩ = [event_t.key vkey_t.BACKSPACE] ∧
    next_event ⟨0x1b, Option.some 0x5b, [0x41]⟩
      = [event_t.key vkey_t.UP_ARROW] ∧
    bytes_consumed ⟨0x1b, Option.some 0x5b, [0x41]⟩ = 3 := by
  have hf : map_find virtual_key_map (accumulate inp) = Option.some vk := by
    rw [hacc]
    exact mem_map_find s vk hmem
  exact ⟨next_event_of_find_some inp vk hf (table_value_ne_none s vk hmem),
    by decide, by decide, by decide, by decide, by decide⟩

/-- Witness for C4 at the concrete entry `ESC [ A` mapped to `UpArrow`. -/
theorem c4_exact_table_match_witness :
    next_event ⟨0x1b, Option.some 0x5b, [0x41]⟩
      = [event_t.key vkey_t.UP_ARROW] :=
  (c4_exact_table_match ⟨0x1b, Option.some 0x5b, [0x41]⟩
    [0x1b, 0x5b, 0x41] vkey_t.UP_ARROW (by decide) (by decide)).1

/-- Claim C5: the table is exactly the 22 enumerated entries (it coincides
with the spec's enumeration); F1, F10, F11 and F12 are constructors of the
`vkey_t` enum yet appear in no table entry, so no decoded event is ever
`Key(F1)`, `Key(F10)`, `Key(F11)` or `Key(F12)`. -/
theorem c5_f1_f10_f11_f12_unreachable (inp : NextEventInput) (k : vkey_t)
    (hk : event_t.key k ∈ next_event inp) :
    virtual_key_map = spec_sequence_table ∧
    virtual_key_map.length = 22 ∧
    (∀ p ∈ virtual_key_map, p.2 ≠ vkey_t.F1 ∧ p.2 ≠ vkey_t.F10 ∧
      p.2 ≠ vkey_t.F11 ∧ p.2 ≠ vkey_t.F12) ∧
    k ≠ vkey_t.F1 ∧ k ≠ vkey_t.F10 ∧ k ≠ vkey_t.F11 ∧ k ≠ vkey_t.F12 := by
  have habsent : ∀ p ∈ virtual_key_map, p.2 ≠ vkey_t.F1 ∧
      p.2 ≠ vkey_t.F10 ∧ p.2 ≠ vkey_t.F11 ∧ p.2 ≠ vkey_t.F12 := by
    decide
  have hmem : (accumulate inp, k) ∈ virtual_key_map :=
    map_find_mem virtual_key_map (accumulate inp) k
      (key_event_from_lookup inp k hk)
  exact ⟨rfl, rfl, habsent, habsent _ hmem⟩

/-- Witness for C5 at the concrete stream consisting of the byte 0x0a,
which decodes to the `Key(Enter)` event. -/
theorem c5_f1_f10_f11_f12_unreachable_witness :
    virtual_key_map.length = 22 ∧ vkey_t.ENTER ≠ vkey_t.F1 := by
  have h := c5_f1_f10_f11_f12_unreachable ⟨0x0a, Option.none, []⟩
    vkey_t.ENTER (by decide)
  exact ⟨h.2.1, h.2.2.2.1⟩

/-- Counterexample to claim C1: for the promptly delivered unmapped stream
`ESC [ Z`, the dispatch emits THREE character events — one per byte of the
accumulated sequence — not the single event `Character(ESC)` the claim
states; the trailing bytes are not discarded. -/
theorem c1_counterexample :
    next_event ⟨0x1b, Option.some 0x5b, [0x5a]⟩ =
      [event_t.character 0x1b, event_t.character 0x5b,
        event_t.character 0x5a] ∧
    next_event ⟨0x1b, Option.some 0x5b, [0x5a]⟩
      ≠ [event_t.character 0x1b] := by
  decide

/-- Claim C1 as amended: for every multi-byte accumulated sequence (first
byte ESC, at least one continuation byte) with no exact match in the table,
`next_event` emits one character event per byte of the accumulated
sequence, in order, beginning with the first byte ESC; in particular
`ESC [ Z` yields `Character(ESC)`, `Character('[')`, `Character('Z')`. -/
theorem c1_amended_unmatched_emits_every_byte (inp : NextEventInput)
    (b : Byte) (hesc : inp.first = 0x1b)
    (himm : inp.immediate = Option.some b)
    (hnomatch : map_find virtual_key_map (accumulate inp) = Option.none) :
    next_event inp = (accumulate inp).map event_t.character ∧
    (∃ t, accumulate inp = 0x1b :: b :: t) ∧
    next_event ⟨0x1b, Option.some 0x5b, [0x5a]⟩ =
      [event_t.character 0x1b, event_t.character 0x5b,
        event_t.character 0x5a] := by
  refine ⟨next_event_of_find_none inp hnomatch, ?_, by decide⟩
  refine ⟨cstring (buffer_fill inp.continuation), ?_⟩
  unfold accumulate
  rw [if_pos hesc, himm, hesc]
  rfl

/-- Witness for the amended C1 at the concrete unmapped stream `ESC [ Z`. -/
theorem c1_amended_unmatched_emits_every_byte_witness :
    next_event ⟨0x1b, Option.some 0x5b, [0x5a]⟩ =
      (accumulate ⟨0x1b, Option.some 0x5b, [0x5a]⟩).map event_t.character :=
  (c1_amended_unmatched_emits_every_byte ⟨0x1b, Option.some 0x5b, [0x5a]⟩
    0x5b rfl rfl (by decide)).1

/-- Counterexample to claim C3: a stream whose ESC continuation delivers a
byte and then ten further non-NUL bytes accumulates a 12-byte sequence,
exceeding the claimed 11-byte bound. -/
theorem c3_counterexample :
    11 < (accumulate ⟨0x1b, Option.some 0x5b,
      [0x31, 0x32, 0x33, 0x34, 0x35, 0x36, 0x37, 0x38, 0x39, 0x30]⟩).length
    := by
  decide

/-- Claim C3 as amended: the accumulated sequence of one `next_event` call
has length at most 12 (1 first byte + 1 continuation byte + at most 10
bytes surviving from the final up-to-10-byte read). -/
theorem c3_amended_sequence_at_most_12 (inp : NextEventInput) :
    (accumulate inp).length ≤ 12 := by
  unfold accumulate
  by_cases h : inp.first = 0x1b
  · rw [if_pos h]
    cases himm : inp.immediate with
    | none => simp
    | some b =>
        have h10 : (cstring (buffer_fill inp.continuation)).length ≤ 10 := by
          rw [cstring_buffer_fill]
          calc (cstring (inp.continuation.take 10)).length
              ≤ (inp.continuation.take 10).length :=
                (List.takeWhile_prefix _).length_le
            _ ≤ 10 := by simp
        simp only [List.length_append, List.length_cons, List.length_nil]
        omega
  · rw [if_neg h]
    simp

/-- Claim C6: the decoder never produces an error: every read-outcome
oracle yields a (nonempty) list of dispatched events; a timed-out
continuation read (zero bytes after ESC) is handled as the normal bare-ESC
outcome; and no read is retried — a call performs at most 3 reads, one per
state-machine step. -/
theorem c6_no_error_no_retry (inp : NextEventInput) :
    1 ≤ (next_event inp).length ∧
    (inp.first = 0x1b → inp.immediate = Option.none →
      next_event inp = [event_t.key vkey_t.ESC]) ∧
    reads_performed inp ≤ 3 := by
  refine ⟨?_, fun hesc ht => next_event_bare_esc inp hesc ht, ?_⟩
  · cases hf : map_find virtual_key_map (accumulate inp) with
    | none =>
        rw [next_event_of_find_none inp hf]
        obtain ⟨t, ht⟩ := accumulate_head inp
        rw [ht]
        simp
    | some vk =>
        have hv : vk ≠ vkey_t.none :=
          table_value_ne_none _ vk (map_find_mem _ _ vk hf)
        rw [next_event_of_find_some inp vk hf hv]
        simp
  · unfold reads_performed
    by_cases h : inp.first = 0x1b
    · rw [if_pos h]
      cases inp.immediate <;> simp
    · rw [if_neg h]
      simp

/-- Witness for C6 at the concrete bare-ESC stream (ESC, then timeout). -/
theorem c6_no_error_no_retry_witness :
    1 ≤ (next_event ⟨0x1b, Option.none, []⟩).length ∧
    next_event ⟨0x1b, Option.none, []⟩ = [event_t.key vkey_t.ESC] ∧
    reads_performed ⟨0x1b, Option.none, []⟩ ≤ 3 := by
  have h := c6_no_error_no_retry ⟨0x1b, Option.none, []⟩
  exact ⟨h.1, h.2.1 rfl rfl, h.2.2⟩

/-- Claim C7: the dispatch loop runs until the blocking read returns the
byte `q` (0x71) as the first byte of an iteration and then stops with exit
code 0, having dispatched exactly the events of the earlier iterations; the
decoder itself has no sentinel — it classifies `q` as an ordinary
character event whatever the continuation oracle is. -/
theorem c7_runs_until_q (pre : List NextEventInput) (qinp : NextEventInput)
    (post : List NextEventInput) (hq : qinp.first = 0x71)
    (hpre : ∀ i ∈ pre, i.first ≠ 0x71) :
    run (pre ++ qinp :: post) = ((pre.map next_event).flatten, 0) ∧
    (∀ imm cont, next_event ⟨0x71, imm, cont⟩ = [event_t.character 0x71])
    := by
  constructor
  · induction pre with
    | nil => simp [run, hq]
    | cons i t ih =>
        have hi : i.first ≠ 0x71 := hpre i (List.mem_cons_self i t)
        have hrest := ih fun j hj => hpre j (List.mem_cons_of_mem i hj)
        simp [run, hi, hrest]
  · intro imm cont
    have hacc : accumulate ⟨0x71, imm, cont⟩ = [0x71] := rfl
    have hf : map_find virtual_key_map (accumulate ⟨0x71, imm, cont⟩)
        = Option.none := by
      rw [hacc]
      rfl
    rw [next_event_of_find_none _ hf, hacc]
    rfl

/-- Witness for C7 at the one-iteration stream whose first byte is `q`. -/
theorem c7_runs_until_q_witness :
    run [⟨0x71, Option.none, []⟩] = ([], 0) ∧
    next_event ⟨0x71, Option.none, []⟩ = [event_t.character 0x71] := by
  have h := c7_runs_until_q [] ⟨0x71, Option.none, []⟩ [] rfl (by simp)
  exact ⟨h.1, h.2 Option.none []⟩

/-- Claim C10: when the ESC continuation read delivers a byte and the final
up-to-10-byte read delivers bytes containing a 0x00, the bytes at and after
the first 0x00 are silently dropped from the accumulated sequence before
the table lookup (C-string append semantics on the zero-initialized
buffer); the delivered-byte count is never consulted — the result is the
same however many bytes followed the NUL. -/
theorem c10_nul_truncates_continuation (b : Byte) (pre post : List Byte)
    (hpre : (0 : Byte) ∉ pre) (hlen : pre.length + 1 + post.length ≤ 10) :
    accumulate ⟨0x1b, Option.some b, pre ++ 0 :: post⟩ = 0x1b :: b :: pre ∧
    accumulate ⟨0x1b, Option.some b, pre ++ 0 :: post⟩
      = accumulate ⟨0x1b, Option.some b, pre ++ [0]⟩ := by
  have key : ∀ r : List Byte, pre.length + 1 + r.length ≤ 10 →
      accumulate ⟨0x1b, Option.some b, pre ++ 0 :: r⟩ = 0x1b :: b :: pre := by
    intro r hr
    have htake : (pre ++ 0 :: r).take 10 = pre ++ 0 :: r :=
      List.take_of_length_le (by simp; omega)
    show [0x1b] ++ [b] ++ cstring (buffer_fill (pre ++ 0 :: r))
        = 0x1b :: b :: pre
    rw [cstring_buffer_fill, htake, cstring_append_zero,
      cstring_of_zero_not_mem pre hpre]
    rfl
  exact ⟨key post hlen,
    (key post hlen).trans (key [] (by simp only [List.length_nil]; omega)).symm⟩

/-- Witness for C10 at the concrete continuation `A NUL B`: the `B` after
the NUL disappears from the accumulated sequence. -/
theorem c10_nul_truncates_continuation_witness :
    accumulate ⟨0x1b, Option.some 0x5b, [0x41] ++ 0 :: [0x42]⟩
      = 0x1b :: 0x5b :: [0x41] ∧
    accumulate ⟨0x1b, Option.some 0x5b, [0x41] ++ 0 :: [0x42]⟩
      = accumulate ⟨0x1b, Option.some 0x5b, [0x41] ++ [0]⟩ :=
  c10_nul_truncates_continuation 0x5b [0x41] [0x42] (by decide) (by decide)

/-- Shared helper: the effect of `enable_raw_mode` on a fresh process
(guard not yet tripped): it registers the exit hook, snapshots the current
terminal settings into `orig_termios`, and trips the guard. -/
lemma enable_raw_mode_fresh (w : Bool) (m : raw_mode_t) (s : ProcState)
    (h : s.bset_exit = false) :
    (enable_raw_mode w m s).atexit_hooks = s.atexit_hooks + 1 ∧
    (enable_raw_mode w m s).orig_termios = s.terminal ∧
    (enable_raw_mode w m s).bset_exit = true := by
  cases m <;> cases w <;> simp [enable_raw_mode, h]

/-- Shared helper: once the guard is tripped, `enable_raw_mode` registers
no hook and leaves the saved settings untouched. -/
lemma enable_raw_mode_installed (w : Bool) (m : raw_mode_t) (s : ProcState)
    (h : s.bset_exit = true) :
    (enable_raw_mode w m s).atexit_hooks = s.atexit_hooks ∧
    (enable_raw_mode w m s).orig_termios = s.orig_termios ∧
    (enable_raw_mode w m s).bset_exit = true := by
  cases m <;> cases w <;> simp [enable_raw_mode, h]

/-- Claim C8: calling `enable_raw_mode` twice in a row on a fresh process
registers the `atexit` restoration hook exactly once, and the saved
`orig_termios` after both calls is the snapshot taken before the first call
(the second call does not overwrite it with the already-raw settings). -/
theorem c8_enable_twice_installs_once (s : ProcState)
    (hfresh : s.bset_exit = false) (w1 w2 : Bool) (m1 m2 : raw_mode_t) :
    (enable_raw_mode w2 m2 (enable_raw_mode w1 m1 s)).atexit_hooks
      = s.atexit_hooks + 1 ∧
    (enable_raw_mode w2 m2 (enable_raw_mode w1 m1 s)).orig_termios
      = s.terminal ∧
    (enable_raw_mode w1 m1 s).orig_termios = s.terminal := by
  obtain ⟨h1, h2, h3⟩ := enable_raw_mode_fresh w1 m1 s hfresh
  obtain ⟨g1, g2, -⟩ := enable_raw_mode_installed w2 m2 _ h3
  exact ⟨by rw [g1, h1], by rw [g2, h2], h2⟩

/-- Witness for C8 at a concrete fresh process state. -/
theorem c8_enable_twice_installs_once_witness :
    (enable_raw_mode false raw_mode_t.immediate_no_echo
      (enable_raw_mode true raw_mode_t.immediate_no_echo
        ⟨⟨⟨true, true, true, true⟩, 0, 0, 5⟩,
          ⟨⟨false, false, false, false⟩, 9, 9, 7⟩, false, 0⟩)).atexit_hooks
      = 1 ∧
    (enable_raw_mode false raw_mode_t.immediate_no_echo
      (enable_raw_mode true raw_mode_t.immediate_no_echo
        ⟨⟨⟨true, true, true, true⟩, 0, 0, 5⟩,
          ⟨⟨false, false, false, false⟩, 9, 9, 7⟩, false, 0⟩)).orig_termios
      = ⟨⟨true, true, true, true⟩, 0, 0, 5⟩ := by
  have h := c8_enable_twice_installs_once
    ⟨⟨⟨true, true, true, true⟩, 0, 0, 5⟩,
      ⟨⟨false, false, false, false⟩, 9, 9, 7⟩, false, 0⟩
    rfl true false raw_mode_t.immediate_no_echo raw_mode_t.immediate_no_echo
  exact ⟨h.1, h.2.1⟩

/-- Claim C9: for every starting terminal state (fresh process),
`enable_raw_mode` followed by `disable_raw_mode` leaves the terminal
settings bit-identical to the snapshot taken before entering raw mode. -/
theorem c9_enter_restore_round_trip (s : ProcState)
    (hfresh : s.bset_exit = false) (w : Bool) (m : raw_mode_t) :
    (disable_raw_mode (enable_raw_mode w m s)).terminal = s.terminal := by
  obtain ⟨-, h2, -⟩ := enable_raw_mode_fresh w m s hfresh
  show (enable_raw_mode w m s).orig_termios = s.terminal
  exact h2

/-- Witness for C9 at a concrete fresh process state. -/
theorem c9_enter_restore_round_trip_witness :
    (disable_raw_mode (enable_raw_mode true raw_mode_t.immediate_no_echo
      ⟨⟨⟨true, true, true, true⟩, 1, 0, 3⟩,
        ⟨⟨false, false, false, false⟩, 0, 1, 4⟩, false, 0⟩)).terminal
      = ⟨⟨true, true, true, true⟩, 1, 0, 3⟩ :=
  c9_enter_restore_round_trip
    ⟨⟨⟨true, true, true, true⟩, 1, 0, 3⟩,
      ⟨⟨false, false, false, false⟩, 0, 1, 4⟩, false, 0⟩
    rfl true raw_mode_t.immediate_no_echo

end KeyCode
